import Mathlib

/-!
Shallow embedding of the `renderer` package: a small HTTP-response
formatting library (plain text, JSON, JSONP, XML, YAML, HTML templates,
binary/file streams).  The repository ships only the test file and an
example `main`, so the renderer itself is modelled from the specification
(spec.md), with the tests pinning down the observable values (header
strings, body shapes, error cases).  Serialization (JSON/XML/YAML
marshaling) is performed by host-ecosystem libraries in the original; it
is modelled here by executable marshalers over explicit value types.
-/

set_option maxHeartbeats 1000000

namespace Renderer

/-- Modelled from the spec: the HTTP header name under which every format
method stores its media type. -/
def ContentType : String := "Content-Type"

/-- Modelled from the spec: the header name used by the binary/file methods
for inline/attachment disposition. -/
def ContentDisposition : String := "Content-Disposition"

/-- Modelled from the spec: content type for plain text responses. -/
def ContentText : String := "text/plain"

/-- Modelled from the spec: content type for JSON responses. -/
def ContentJSON : String := "application/json"

/-- Modelled from the spec: content type for JSONP responses; the spec fixes
it to the exact string `application/json`, the same media type as JSON. -/
def ContentJSONP : String := "application/json"

/-- Modelled from the spec: content type for XML responses. -/
def ContentXML : String := "application/xml"

/-- Modelled from the spec: content type for YAML responses. -/
def ContentYAML : String := "application/x-yaml"

/-- Modelled from the spec: content type for HTML/template responses. -/
def ContentHTML : String := "text/html"

/-- Modelled from the spec: content type for raw binary responses. -/
def ContentBinary : String := "application/octet-stream"

/-- Modelled from the spec: the default charset appended to content types. -/
def defaultCharSet : String := "UTF-8"

/-- Modelled from the spec: the default XML prefix string prepended by the
XML method when the user supplies none (a processing-instruction header; the
trailing backslash-n is two literal characters, as in the source's raw
string literal). -/
def defaultXMLPrefix : String := "<?xml version=\"1.0\" encoding=\"ISO-8859-1\" ?>\\n"

/-- Modelled from the spec: the configuration object holding formatting
options, read on every render call. -/
structure Options where
  Charset : String := ""
  ContentJSON : String := ""
  ContentJSONP : String := ""
  ContentXML : String := ""
  ContentYAML : String := ""
  ContentText : String := ""
  ContentHTML : String := ""
  ContentBinary : String := ""
  DisableCharset : Bool := false
  Debug : Bool := false
  JSONIndent : Bool := false
  XMLIndent : Bool := false
  UnEscapeHTML : Bool := false
  JSONPrefix : String := ""
  XMLPrefix : String := ""
  ParseGlobPattern : String := ""
  TemplateDir : String := ""
  LeftDelim : String := ""
  RightDelim : String := ""
  deriving Repr, DecidableEq

/-- Modelled from the spec: a template body is a sequence of nodes, each
either literal text or a reference executing another named template. -/
inductive Node where
  | text (s : String)
  | exec (name : String)
  deriving Repr, DecidableEq

/-- Modelled from the spec: a parsed template set maps template names to
template bodies. -/
abbrev TmplSet := List (String × List Node)

/-- Modelled from the spec: the renderer facade.  Template parsing from the
filesystem (glob pattern, template directory) is abstracted: `templates` is
the set parsed from the glob pattern, `viewSet` maps each view name to the
template definitions of its content file, and `baseLayout` is the fixed base
layout of view mode. -/
structure Render where
  opts : Options
  templates : TmplSet := []
  viewSet : List (String × TmplSet) := []
  baseLayout : List Node := []

/-- Modelled from the spec: append the charset suffix to one content-type
string. -/
def withCharset (charset ct : String) : String :=
  ct ++ "; charset=" ++ charset

/-- Modelled from the spec: fill a string option with its default when the
user left it empty. -/
def fillDefault (given dflt : String) : String :=
  if given = "" then dflt else given

/-- Modelled from the spec: construction-time defaulting of the options.
Every empty content-type string is replaced by its package constant, the
empty charset by the default charset, and the empty XML prefix by the
default XML processing-instruction header. -/
def Options.withDefaults (o : Options) : Options :=
  { o with
    Charset := fillDefault o.Charset defaultCharSet
    ContentJSON := fillDefault o.ContentJSON Renderer.ContentJSON
    ContentJSONP := fillDefault o.ContentJSONP Renderer.ContentJSONP
    ContentXML := fillDefault o.ContentXML Renderer.ContentXML
    ContentYAML := fillDefault o.ContentYAML Renderer.ContentYAML
    ContentText := fillDefault o.ContentText Renderer.ContentText
    ContentHTML := fillDefault o.ContentHTML Renderer.ContentHTML
    ContentBinary := fillDefault o.ContentBinary Renderer.ContentBinary
    XMLPrefix := fillDefault o.XMLPrefix defaultXMLPrefix }

/-- Modelled from the spec: at construction time, unless charset is
disabled, the charset suffix is appended to every content-type option
string. -/
def Options.enableCharset (o : Options) : Options :=
  { o with
    ContentJSON := withCharset o.Charset o.ContentJSON
    ContentJSONP := withCharset o.Charset o.ContentJSONP
    ContentXML := withCharset o.Charset o.ContentXML
    ContentYAML := withCharset o.Charset o.ContentYAML
    ContentText := withCharset o.Charset o.ContentText
    ContentHTML := withCharset o.Charset o.ContentHTML }

/-- Modelled from the spec: `New` constructs a renderer from an options
struct, defaulting unset options and baking the charset suffix into the
content-type strings unless `DisableCharset` was passed. -/
def New (o : Options := {}) : Render :=
  let od := o.withDefaults
  { opts := if od.DisableCharset then od else od.enableCharset }

/-- Modelled from the spec: the `DisableCharset` setter on an
already-constructed renderer sets the flag on the options. -/
def Render.DisableCharset (r : Render) (b : Bool) : Render :=
  { r with opts := { r.opts with DisableCharset := b } }

/-- Modelled from the spec: the response sink, recording written status
code, headers and body. -/
structure Recorder where
  status : Option Nat := none
  headers : List (String × String) := []
  body : String := ""

/-- Modelled from the spec: set a header.  The most recent entry for a name
is the one `getHeader` reads, so prepending models replace-on-set. -/
def Recorder.setHeader (w : Recorder) (k v : String) : Recorder :=
  { w with headers := (k, v) :: w.headers }

/-- Modelled from the spec: write the status code. -/
def Recorder.writeHeader (w : Recorder) (code : Nat) : Recorder :=
  { w with status := some code }

/-- Modelled from the spec: append to the response body. -/
def Recorder.write (w : Recorder) (s : String) : Recorder :=
  { w with body := w.body ++ s }

/-- Modelled from the spec: read back a header's value (empty when never
set). -/
def Recorder.getHeader (w : Recorder) (k : String) : String :=
  ((w.headers.find? (fun p => p.1 = k)).map Prod.snd).getD ""

/-- Modelled from the spec: a render call's outcome, the final recorder
state plus the returned error (an error message, or `none`). -/
structure RenderResult where
  res : Recorder
  err : Option String

/-- Modelled from the spec: a JSON-serializable field value of a struct,
either a string or an integer (the shapes the tests exercise).  Every value
of this type serializes successfully, embedding the claims' restriction to
values whose serialization succeeds. -/
inductive JVal where
  | jstr (s : String)
  | jnum (n : Int)
  deriving Repr, DecidableEq

/-- Modelled from the spec: a struct value to be marshaled, a sequence of
named JSON-serializable fields in declaration order. -/
structure JObj where
  fields : List (String × JVal)
  deriving Repr, DecidableEq

/-- Modelled from the spec: the decimal digit character of `d` below ten. -/
def digitChar (d : Nat) : Char := Char.ofNat (48 + d)

/-- Modelled from the spec: the decimal digits of a natural number, most
significant first. -/
def natDigits (n : Nat) : List Char :=
  if _h : n < 10 then [digitChar n]
  else natDigits (n / 10) ++ [digitChar (n % 10)]
termination_by n
decreasing_by exact Nat.div_lt_self (by omega) (by omega)

/-- Modelled from the spec: the host marshaler's decimal rendering of an
integer. -/
def intChars (n : Int) : List Char :=
  if n < 0 then '-' :: natDigits n.natAbs else natDigits n.natAbs

/-- Modelled from the spec: the host JSON marshaler's escaping of one
string character (quote and backslash are escaped). -/
def escChar (c : Char) : List Char :=
  if c = '"' then ['\\', '"']
  else if c = '\\' then ['\\', '\\']
  else [c]

/-- Modelled from the spec: escape every character of a string body. -/
def escList (s : List Char) : List Char := (s.map escChar).flatten

/-- Modelled from the spec: a JSON string literal, quotes around the
escaped body. -/
def jsonStrChars (s : String) : List Char := '"' :: (escList s.data ++ ['"'])

/-- Modelled from the spec: the JSON rendering of one field value. -/
def jsonValChars : JVal → List Char
  | .jstr s => jsonStrChars s
  | .jnum n => intChars n

/-- Modelled from the spec: one `"key":value` pair of the compact form. -/
def jsonFieldChars (k : String) (v : JVal) : List Char :=
  jsonStrChars k ++ ':' :: jsonValChars v

/-- Modelled from the spec: the comma-separated compact field list. -/
def jsonFieldsChars : List (String × JVal) → List Char
  | [] => []
  | [(k, v)] => jsonFieldChars k v
  | (k, v) :: f :: rest => jsonFieldChars k v ++ ',' :: jsonFieldsChars (f :: rest)

/-- Modelled from the spec: the compact JSON object body, as the host
marshaler emits it. -/
def jsonObjChars (o : JObj) : List Char := '{' :: (jsonFieldsChars o.fields ++ ['}'])

/-- Modelled from the spec: one indented `"key": value` line (indentation
of one space, as the renderer requests from the host marshaler). -/
def jsonFieldIndChars (k : String) (v : JVal) : List Char :=
  '\n' :: ' ' :: (jsonStrChars k ++ ':' :: ' ' :: jsonValChars v)

/-- Modelled from the spec: the comma-separated indented field list. -/
def jsonFieldsIndChars : List (String × JVal) → List Char
  | [] => []
  | [(k, v)] => jsonFieldIndChars k v
  | (k, v) :: f :: rest => jsonFieldIndChars k v ++ ',' :: jsonFieldsIndChars (f :: rest)

/-- Modelled from the spec: the indented JSON object body. -/
def jsonObjIndChars (o : JObj) : List Char :=
  if o.fields.isEmpty then ['{', '}']
  else '{' :: (jsonFieldsIndChars o.fields ++ ['\n', '}'])

/-- Modelled from the spec: the renderer's internal `json` serializer,
choosing the indented form when the `JSONIndent` option is set.  The
`UnEscapeHTML` replacement of HTML escape sequences is the identity here,
since the modelled marshaler emits none. -/
def Render.json (r : Render) (v : JObj) : String :=
  if r.opts.JSONIndent then String.mk (jsonObjIndChars v) else String.mk (jsonObjChars v)

/-- Modelled from the spec: a struct value to be XML-marshaled: an element
name (the struct's type name) and named string-rendered fields. -/
structure XElem where
  name : String
  fields : List (String × String)
  deriving Repr, DecidableEq

/-- Modelled from the spec: the host XML marshaler's escaping of one
character data character. -/
def xmlEscChar (c : Char) : List Char :=
  if c = '&' then "&amp;".data
  else if c = '<' then "&lt;".data
  else if c = '>' then "&gt;".data
  else [c]

/-- Modelled from the spec: escape a whole character data body. -/
def xmlEscList (s : List Char) : List Char := (s.map xmlEscChar).flatten

/-- Modelled from the spec: one `<key>value</key>` field element. -/
def xmlFieldChars (k v : String) : List Char :=
  '<' :: (k.data ++ '>' :: (xmlEscList v.data ++ '<' :: '/' :: (k.data ++ ['>'])))

/-- Modelled from the spec: the concatenated compact field elements. -/
def xmlFieldsChars : List (String × String) → List Char
  | [] => []
  | (k, v) :: rest => xmlFieldChars k v ++ xmlFieldsChars rest

/-- Modelled from the spec: the compact XML body of a struct value. -/
def xmlObjChars (x : XElem) : List Char :=
  '<' :: (x.name.data ++ '>' :: (xmlFieldsChars x.fields ++ '<' :: '/' :: (x.name.data ++ ['>'])))

/-- Modelled from the spec: the indented field elements, each on its own
line indented by one space. -/
def xmlFieldsIndChars : List (String × String) → List Char
  | [] => []
  | (k, v) :: rest => '\n' :: ' ' :: (xmlFieldChars k v ++ xmlFieldsIndChars rest)

/-- Modelled from the spec: the indented XML body of a struct value. -/
def xmlObjIndChars (x : XElem) : List Char :=
  if x.fields.isEmpty then xmlObjChars x
  else '<' :: (x.name.data ++ '>' ::
    (xmlFieldsIndChars x.fields ++ '\n' :: '<' :: '/' :: (x.name.data ++ ['>'])))

/-- Modelled from the spec: the renderer's XML serializer, choosing the
indented form when the `XMLIndent` option is set. -/
def Render.xml (r : Render) (x : XElem) : String :=
  if r.opts.XMLIndent then String.mk (xmlObjIndChars x) else String.mk (xmlObjChars x)

/-- Modelled from the spec: lowercase every character of a string, as the
host YAML marshaler does to field names. -/
def lowerStr (s : String) : String := String.mk (s.data.map Char.toLower)

/-- Modelled from the spec: the YAML rendering of a struct value, one
`key: value` line per field with lowercased keys. -/
def yamlStr (fields : List (String × String)) : String :=
  String.join (fields.map (fun p => lowerStr p.1 ++ ": " ++ p.2 ++ "\n"))

/-- Modelled from the spec: look a template up by name in a parsed set. -/
def lookupTmpl (ts : TmplSet) (n : String) : Option (List Node) :=
  (ts.find? (fun p => p.1 = n)).map (·.2)

/-- Modelled from the spec: the execution depth bound of the host template
engine. -/
def maxExecDepth : Nat := 100000

/-- Modelled from the spec: execute one template node against a parsed set,
splicing the referenced template (empty output for an unknown reference;
the fuel bounds the reference depth as the host engine does). -/
def execNode (ts : TmplSet) : Nat → Node → String
  | _, .text s => s
  | 0, .exec _ => ""
  | fuel+1, .exec n =>
    match lookupTmpl ts n with
    | none => ""
    | some body => String.join (body.map (execNode ts fuel))
termination_by structural fuel => fuel

/-- Modelled from the spec: execute a template body, the concatenation of
its executed nodes. -/
def execT (ts : TmplSet) (fuel : Nat) (ns : List Node) : String :=
  String.join (ns.map (execNode ts fuel))

/-- Abbreviation for the string type, used inside declarations named
`Render.*`, where a bare `String` would resolve to the method
`Render.String`. -/
abbrev Str := String

/-- Modelled from the spec: the `String` method writes the plain-text
content type, the status code, then the data as the body. -/
def Render.String (r : Render) (w : Recorder) (code : Nat) (s : String) : RenderResult :=
  ⟨((w.setHeader ContentType r.opts.ContentText).writeHeader code).write s, none⟩

/-- Modelled from the spec: the `JSON` method writes the JSON content type,
the status code, then the `JSONPrefix` followed by the serialized value. -/
def Render.JSON (r : Render) (w : Recorder) (code : Nat) (v : JObj) : RenderResult :=
  ⟨((w.setHeader ContentType r.opts.ContentJSON).writeHeader code).write
    (r.opts.JSONPrefix ++ r.json v), none⟩

/-- Modelled from the spec: the `JSONP` method writes the JSONP content
type and the status code; an empty callback name is then reported as an
error with nothing written to the body, otherwise the body is
`callback(json);` with no prefix applied. -/
def Render.JSONP (r : Render) (w : Recorder) (code : Nat) (callback : Str) (v : JObj) :
    RenderResult :=
  let w2 := (w.setHeader ContentType r.opts.ContentJSONP).writeHeader code
  if callback = "" then ⟨w2, some "renderer: callback can not be empty"⟩
  else ⟨w2.write (callback ++ "(" ++ r.json v ++ ");"), none⟩

/-- Modelled from the spec: the `XML` method writes the XML content type,
the status code, then the `XMLPrefix` followed by the serialized value. -/
def Render.XML (r : Render) (w : Recorder) (code : Nat) (x : XElem) : RenderResult :=
  ⟨((w.setHeader ContentType r.opts.ContentXML).writeHeader code).write
    (r.opts.XMLPrefix ++ r.xml x), none⟩

/-- Modelled from the spec: the `YAML` method writes the YAML content type,
the status code, then the serialized value. -/
def Render.YAML (r : Render) (w : Recorder) (code : Nat) (fields : List (Str × Str)) :
    RenderResult :=
  ⟨((w.setHeader ContentType r.opts.ContentYAML).writeHeader code).write (yamlStr fields), none⟩

/-- Modelled from the spec: the `HTML` method writes the HTML content type
and the status code, then looks the named template up in the set parsed
from the glob pattern: an unknown name is an error with nothing written to
the body, a known name executes to the composed HTML. -/
def Render.HTML (r : Render) (w : Recorder) (code : Nat) (name : Str) : RenderResult :=
  let w2 := (w.setHeader ContentType r.opts.ContentHTML).writeHeader code
  match lookupTmpl r.templates name with
  | none => ⟨w2, some ("renderer: template not found: " ++ name)⟩
  | some body => ⟨w2.write (execT r.templates maxExecDepth body), none⟩

/-- Modelled from the spec: the `Template` method parses an explicit file
list (given here already parsed, `parsed`, with `layout` the template the
last path's base name identifies) and executes it. -/
def Render.Template (r : Render) (w : Recorder) (code : Nat) (parsed : TmplSet)
    (layout : List Node) : RenderResult :=
  ⟨((w.setHeader ContentType r.opts.ContentHTML).writeHeader code).write
    (execT parsed maxExecDepth layout), none⟩

/-- Modelled from the spec: the `View` method writes the HTML content type
and the status code, then renders the fixed base layout against the named
content file's definitions: a name with no content file is an error with
nothing written to the body. -/
def Render.View (r : Render) (w : Recorder) (code : Nat) (name : Str) : RenderResult :=
  let w2 := (w.setHeader ContentType r.opts.ContentHTML).writeHeader code
  match (r.viewSet.find? (fun p => p.1 = name)).map (·.2) with
  | none => ⟨w2, some ("renderer: view not found: " ++ name)⟩
  | some defs => ⟨w2.write (execT defs maxExecDepth r.baseLayout), none⟩

/-- Modelled from the spec: the `Content-Disposition` value, `inline` when
the flag is true, `attachment; filename="name"` when it is false. -/
def dispositionValue (name : String) (isInline : Bool) : String :=
  if isInline then "inline" else "attachment; filename=\"" ++ name ++ "\""

/-- Modelled from the spec: the `Binary` method sets the content
disposition and the binary content type, writes the status code, then the
reader's bytes unchanged. -/
def Render.Binary (r : Render) (w : Recorder) (code : Nat) (data name : Str)
    (isInline : Bool) : RenderResult :=
  ⟨(((w.setHeader ContentDisposition (dispositionValue name isInline)).setHeader
      ContentType r.opts.ContentBinary).writeHeader code).write data, none⟩

/-- Modelled from the spec: the `File` method sets the content disposition,
writes the status code, then streams the reader's bytes unchanged. -/
def Render.File (_r : Render) (w : Recorder) (code : Nat) (data name : Str)
    (isInline : Bool) : RenderResult :=
  ⟨((w.setHeader ContentDisposition (dispositionValue name isInline)).writeHeader
      code).write data, none⟩

/-- Whitespace characters, for comparing bodies up to whitespace. -/
def isWsChar (c : Char) : Bool := c = ' ' || c = '\n' || c = '\t' || c = '\r'

/-- A body stripped of all whitespace characters. -/
def stripWs (s : String) : String := String.mk (s.data.filter (fun c => !isWsChar c))

/-- Modelled from the spec: the host JSON unmarshaler's unescaping of one
escape character. -/
def unescChar (c : Char) : Option Char :=
  if c = '"' then some '"'
  else if c = '\\' then some '\\'
  else none

/-- Modelled from the spec: parse a JSON string literal body after its
opening quote, returning the decoded characters and the rest. -/
def parseStrAux : List Char → Option (List Char × List Char)
  | [] => none
  | c :: cs =>
    if c = '"' then some ([], cs)
    else if c = '\\' then
      match cs with
      | [] => none
      | e :: cs2 =>
        match unescChar e with
        | none => none
        | some ch => (parseStrAux cs2).map (fun p => (ch :: p.1, p.2))
    else (parseStrAux cs).map (fun p => (c :: p.1, p.2))
termination_by cs => cs.length
decreasing_by all_goals simp [List.length_cons] <;> omega

/-- Modelled from the spec: the numeric value of a digit sequence. -/
def digitsVal (cs : List Char) : Nat :=
  cs.foldl (fun a c => 10 * a + (c.toNat - 48)) 0

/-- Modelled from the spec: parse a nonempty run of decimal digits. -/
def parseNatCs (cs : List Char) : Option (Nat × List Char) :=
  let digs := cs.takeWhile Char.isDigit
  if digs.isEmpty then none
  else some (digitsVal digs, cs.dropWhile Char.isDigit)

/-- Modelled from the spec: the host unmarshaler skips whitespace between
tokens. -/
def skipWs (cs : List Char) : List Char := cs.dropWhile isWsChar

/-- Modelled from the spec: parse one JSON field value (a string literal or
an integer). -/
def parseJVal (cs : List Char) : Option (JVal × List Char) :=
  match cs with
  | [] => none
  | c :: rest =>
    if c = '"' then (parseStrAux rest).map (fun p => (.jstr (String.mk p.1), p.2))
    else if c = '-' then (parseNatCs rest).map (fun p => (.jnum (-(p.1 : Int)), p.2))
    else (parseNatCs (c :: rest)).map (fun p => (.jnum (p.1 : Int), p.2))

/-- Modelled from the spec: parse the `"key":value` pairs after the
object's opening brace, up to and including the closing brace, skipping
whitespace between tokens. -/
def parseFieldsAux : Nat → List Char → Option (List (String × JVal) × List Char)
  | 0, _ => none
  | fuel+1, cs0 =>
    match skipWs cs0 with
    | [] => none
    | c :: cs =>
      if c = '"' then
        match parseStrAux cs with
        | none => none
        | some (key, rest) =>
          match skipWs rest with
          | [] => none
          | c2 :: rest2 =>
            if c2 = ':' then
              match parseJVal (skipWs rest2) with
              | none => none
              | some (v, rest3) =>
                match skipWs rest3 with
                | [] => none
                | c3 :: rest4 =>
                  if c3 = ',' then
                    (parseFieldsAux fuel rest4).map
                      (fun p => ((String.mk key, v) :: p.1, p.2))
                  else if c3 = '}' then some ([(String.mk key, v)], rest4)
                  else none
            else none
      else none

/-- Modelled from the spec: the host JSON unmarshaler for a flat struct
value, accepting exactly one object spanning the whole input, with
whitespace allowed between tokens. -/
def jsonParse (s : String) : Option JObj :=
  match skipWs s.data with
  | [] => none
  | c :: rest =>
    if c = '{' then
      match skipWs rest with
      | [] => none
      | c2 :: rest2 =>
        if c2 = '}' then (if (skipWs rest2).isEmpty then some ⟨[]⟩ else none)
        else
          match parseFieldsAux (rest.length + 1) rest with
          | some (fs, r2) => if (skipWs r2).isEmpty then some ⟨fs⟩ else none
          | none => none
    else none

/-- The example struct value of the tests: name John Doe, age thirty. -/
def userJObj : JObj := ⟨[("Name", JVal.jstr "John Doe"), ("Age", JVal.jnum 30)]⟩

/-- The example struct value of the tests, as the XML marshaler sees it. -/
def userXElem : XElem := ⟨"user", [("Name", "John Doe"), ("Age", "30")]⟩

/-- The parsed template set of the tests' glob scenario: a header fragment
and a home page referencing it. -/
def testTmplSet : TmplSet :=
  [("header", [Node.text "<head><title>Header</title></head>"]),
   ("homePage", [Node.text "<html>", Node.exec "header", Node.text "home</html>"])]

/-!  Theorems: basic facts about the recorder. -/

@[simp] theorem getHeader_write (w : Recorder) (s k : String) :
    (w.write s).getHeader k = w.getHeader k := rfl

@[simp] theorem getHeader_writeHeader (w : Recorder) (c : Nat) (k : String) :
    (w.writeHeader c).getHeader k = w.getHeader k := rfl

@[simp] theorem body_setHeader (w : Recorder) (k v : String) :
    (w.setHeader k v).body = w.body := rfl

@[simp] theorem body_writeHeader (w : Recorder) (c : Nat) :
    (w.writeHeader c).body = w.body := rfl

@[simp] theorem body_write (w : Recorder) (s : String) :
    (w.write s).body = w.body ++ s := rfl

@[simp] theorem status_setHeader (w : Recorder) (k v : String) :
    (w.setHeader k v).status = w.status := rfl

@[simp] theorem status_write (w : Recorder) (s : String) :
    (w.write s).status = w.status := rfl

@[simp] theorem status_writeHeader (w : Recorder) (c : Nat) :
    (w.writeHeader c).status = some c := rfl

theorem getHeader_setHeader_self (w : Recorder) (k v : String) :
    (w.setHeader k v).getHeader k = v := by
  simp [Recorder.setHeader, Recorder.getHeader, List.find?_cons]

theorem getHeader_setHeader_ne (w : Recorder) (k q v : String) (h : q ≠ k) :
    (w.setHeader q v).getHeader k = w.getHeader k := by
  simp [Recorder.setHeader, Recorder.getHeader, List.find?_cons, h]

/-- C1: for every options struct, recorder, status code and value, calling
JSONP with an empty callback name returns an error and writes no body — in
particular never a malformed one — while the status code and the JSONP
content type have already been written to the response. -/
theorem jsonp_empty_callback_errors (o : Options) (w : Recorder) (code : Nat) (v : JObj) :
    ((New o).JSONP w code "" v).err.isSome = true
  ∧ ((New o).JSONP w code "" v).res.body = w.body
  ∧ ((New o).JSONP w code "" v).res.status = some code
  ∧ ((New o).JSONP w code "" v).res.getHeader ContentType = (New o).opts.ContentJSONP := by
  refine ⟨rfl, rfl, rfl, ?_⟩
  simp [Render.JSONP, getHeader_setHeader_self]

/-- C4: the content type used by the JSONP method is the exact string
application/json, optionally charset-suffixed, the same media type as the
JSON method uses. -/
theorem jsonp_content_type_is_json (w : Recorder) (code : Nat) (c : String) (v : JObj) :
    ContentJSONP = "application/json"
  ∧ ContentJSONP = ContentJSON
  ∧ ((New {}).JSONP w code c v).res.getHeader ContentType
      = "application/json; charset=" ++ defaultCharSet
  ∧ ((New {}).JSONP w code c v).res.getHeader ContentType
      = ((New {}).JSON w code v).res.getHeader ContentType := by
  refine ⟨rfl, rfl, ?_, ?_⟩ <;>
  · by_cases hc : c = "" <;>
      simp [Render.JSONP, Render.JSON, hc, getHeader_setHeader_self] <;> rfl

/-- C8: the Binary and File methods set Content-Disposition to `inline`
when the flag is true and to an attachment carrying the file name when it
is false, writing the reader's bytes unchanged as the body in both cases. -/
theorem binary_file_disposition (r : Render) (w : Recorder) (code : Nat)
    (data name : String) (b : Bool) :
    ((r.Binary w code data name b).res.getHeader ContentDisposition
      = (if b then "inline" else "attachment; filename=\"" ++ name ++ "\""))
  ∧ ((r.Binary w code data name b).res.body = w.body ++ data)
  ∧ ((r.File w code data name b).res.getHeader ContentDisposition
      = (if b then "inline" else "attachment; filename=\"" ++ name ++ "\""))
  ∧ ((r.File w code data name b).res.body = w.body ++ data) := by
  refine ⟨?_, rfl, ?_, rfl⟩
  · show ((((w.setHeader ContentDisposition (dispositionValue name b)).setHeader
        ContentType r.opts.ContentBinary).writeHeader code).write data).getHeader
        ContentDisposition = _
    rw [getHeader_write, getHeader_writeHeader,
      getHeader_setHeader_ne _ _ _ _ (by decide), getHeader_setHeader_self,
      dispositionValue]
  · show ((((w.setHeader ContentDisposition (dispositionValue name b)).writeHeader
        code).write data)).getHeader ContentDisposition = _
    rw [getHeader_write, getHeader_writeHeader, getHeader_setHeader_self,
      dispositionValue]

/-- C9: the DisableCharset setter on a constructed renderer changes only
the flag, leaving every content-type option string as baked at
construction time (still carrying the charset suffix); only passing
DisableCharset in the options at New omits the suffix. -/
theorem disable_charset_is_construction_time (r : Render) (b : Bool) :
    (r.DisableCharset b).opts = { r.opts with DisableCharset := b }
  ∧ (((New {}).DisableCharset true).opts.DisableCharset = true)
  ∧ (((New {}).DisableCharset true).opts.ContentJSON
      = ContentJSON ++ "; charset=" ++ defaultCharSet)
  ∧ (((New {}).DisableCharset true).opts.ContentJSONP
      = ContentJSONP ++ "; charset=" ++ defaultCharSet)
  ∧ (((New {}).DisableCharset true).opts.ContentXML
      = ContentXML ++ "; charset=" ++ defaultCharSet)
  ∧ (((New {}).DisableCharset true).opts.ContentYAML
      = ContentYAML ++ "; charset=" ++ defaultCharSet)
  ∧ (((New {}).DisableCharset true).opts.ContentText
      = ContentText ++ "; charset=" ++ defaultCharSet)
  ∧ (((New {}).DisableCharset true).opts.ContentHTML
      = ContentHTML ++ "; charset=" ++ defaultCharSet)
  ∧ ((New { DisableCharset := true }).opts.ContentJSON = ContentJSON)
  ∧ ((New { DisableCharset := true }).opts.ContentJSONP = ContentJSONP)
  ∧ ((New { DisableCharset := true }).opts.ContentXML = ContentXML)
  ∧ ((New { DisableCharset := true }).opts.ContentYAML = ContentYAML)
  ∧ ((New { DisableCharset := true }).opts.ContentText = ContentText)
  ∧ ((New { DisableCharset := true }).opts.ContentHTML = ContentHTML) :=
  ⟨rfl, rfl, rfl, rfl, rfl, rfl, rfl, rfl, rfl, rfl, rfl, rfl, rfl, rfl⟩

/-! Machinery under test -/

theorem mk_data (s : String) : String.mk s.data = s := rfl

theorem escList_nil : escList [] = [] := rfl

theorem escList_cons (c : Char) (cs : List Char) :
    escList (c :: cs) = escChar c ++ escList cs := by
  simp [escList]

theorem skipWs_cons_of_not (c : Char) (l : List Char) (h : isWsChar c = false) :
    skipWs (c :: l) = c :: l := by
  simp [skipWs, List.dropWhile_cons, h]

theorem skipWs_cons_of_ws (c : Char) (l : List Char) (h : isWsChar c = true) :
    skipWs (c :: l) = skipWs l := by
  simp [skipWs, List.dropWhile_cons, h]

theorem isWsChar_of_isDigit (c : Char) (h : c.isDigit = true) : isWsChar c = false := by
  by_contra hws
  rw [Bool.not_eq_false] at hws
  simp only [isWsChar, Bool.or_eq_true, decide_eq_true_eq] at hws
  rcases hws with ((h1 | h1) | h1) | h1 <;> subst h1 <;> exact absurd h (by decide)

theorem natDigits_eq_of_lt {n : Nat} (h : n < 10) : natDigits n = [digitChar n] := by
  rw [natDigits]
  simp [h]

theorem natDigits_eq_of_ge {n : Nat} (h : ¬ n < 10) :
    natDigits n = natDigits (n / 10) ++ [digitChar (n % 10)] := by
  rw [natDigits]
  simp [h]

theorem digitChar_isDigit {d : Nat} (h : d < 10) : (digitChar d).isDigit = true := by
  interval_cases d <;> decide

theorem digitChar_toNat {d : Nat} (h : d < 10) : (digitChar d).toNat - 48 = d := by
  interval_cases d <;> decide

theorem natDigits_ne_nil (n : Nat) : natDigits n ≠ [] := by
  induction n using Nat.strong_induction_on with
  | _ n ih =>
    by_cases h : n < 10
    · rw [natDigits_eq_of_lt h]
      simp
    · rw [natDigits_eq_of_ge h]
      simp

theorem natDigits_isDigit (n : Nat) : ∀ c ∈ natDigits n, c.isDigit = true := by
  induction n using Nat.strong_induction_on with
  | _ n ih =>
    by_cases h : n < 10
    · rw [natDigits_eq_of_lt h]
      intro c hc
      rw [List.mem_singleton] at hc
      subst hc
      exact digitChar_isDigit h
    · rw [natDigits_eq_of_ge h]
      intro c hc
      rcases List.mem_append.mp hc with h1 | h1
      · exact ih (n / 10) (Nat.div_lt_self (by omega) (by omega)) c h1
      · rw [List.mem_singleton] at h1
        subst h1
        exact digitChar_isDigit (Nat.mod_lt _ (by omega))

theorem foldl_digits_natDigits (n a : Nat) :
    (natDigits n).foldl (fun a c => 10 * a + (c.toNat - 48)) a
      = a * 10 ^ (natDigits n).length + n := by
  induction n using Nat.strong_induction_on generalizing a with
  | _ n ih =>
    by_cases h : n < 10
    · rw [natDigits_eq_of_lt h]
      simp [digitChar_toNat h]
      omega
    · rw [natDigits_eq_of_ge h, List.foldl_append,
        ih (n / 10) (Nat.div_lt_self (by omega) (by omega)) a]
      have hm : 10 * (n / 10) + n % 10 = n := Nat.div_add_mod n 10
      simp [digitChar_toNat (Nat.mod_lt n (show 0 < 10 by omega))]
      rw [pow_succ, Nat.mul_add, Nat.add_assoc, hm]
      ring

theorem takeWhile_digits (ds : List Char) (c : Char) (t : List Char)
    (hds : ∀ x ∈ ds, Char.isDigit x = true) (hc : c.isDigit = false) :
    (ds ++ c :: t).takeWhile Char.isDigit = ds := by
  induction ds with
  | nil => simp [List.takeWhile_cons, hc]
  | cons d ds ih =>
    rw [List.cons_append, List.takeWhile_cons]
    simp [hds d (List.mem_cons_self d ds),
      ih (fun x hx => hds x (List.mem_cons_of_mem d hx))]

theorem dropWhile_digits (ds : List Char) (c : Char) (t : List Char)
    (hds : ∀ x ∈ ds, Char.isDigit x = true) (hc : c.isDigit = false) :
    (ds ++ c :: t).dropWhile Char.isDigit = c :: t := by
  induction ds with
  | nil => simp [List.dropWhile_cons, hc]
  | cons d ds ih =>
    rw [List.cons_append, List.dropWhile_cons]
    simp [hds d (List.mem_cons_self d ds),
      ih (fun x hx => hds x (List.mem_cons_of_mem d hx))]

theorem parseNatCs_natDigits (n : Nat) (c : Char) (t : List Char) (hc : c.isDigit = false) :
    parseNatCs (natDigits n ++ c :: t) = some (n, c :: t) := by
  simp only [parseNatCs, takeWhile_digits _ _ _ (natDigits_isDigit n) hc,
    dropWhile_digits _ _ _ (natDigits_isDigit n) hc]
  have hne := natDigits_ne_nil n
  simp [List.isEmpty_iff, hne, digitsVal, foldl_digits_natDigits]

theorem parseStrAux_escape (s rest : List Char) :
    parseStrAux (escList s ++ '"' :: rest) = some (s, rest) := by
  induction s with
  | nil =>
    rw [escList_nil, List.nil_append]
    simp [parseStrAux.eq_def]
  | cons c cs ih =>
    rw [escList_cons]
    by_cases h1 : c = '"'
    · subst h1
      rw [show escChar '"' = ['\\', '"'] from rfl, List.cons_append, List.cons_append,
        parseStrAux.eq_def]
      simp [unescChar, ih]
    · by_cases h2 : c = '\\'
      · subst h2
        rw [show escChar '\\' = ['\\', '\\'] from rfl, List.cons_append, List.cons_append,
          parseStrAux.eq_def]
        simp [unescChar, ih]
      · rw [show escChar c = [c] from by simp [escChar, h1, h2], List.cons_append,
          List.nil_append, parseStrAux.eq_def]
        simp [unescChar, ih, h1, h2]

theorem ne_of_isDigit_ne {c c' : Char} (h : c.isDigit = true) (h' : c'.isDigit = false) :
    c ≠ c' := fun e => by
  rw [e, h'] at h
  cases h

theorem parseJVal_jsonVal (v : JVal) (c : Char) (t : List Char) (hc : c.isDigit = false) :
    parseJVal (jsonValChars v ++ c :: t) = some (v, c :: t) := by
  cases v with
  | jstr s =>
    simp only [jsonValChars, jsonStrChars, List.cons_append, List.append_assoc,
      List.singleton_append]
    simp [parseJVal, parseStrAux_escape, mk_data]
  | jnum n =>
    by_cases hn : n < 0
    · simp only [jsonValChars, intChars, if_pos hn, List.cons_append]
      simp [parseJVal, parseNatCs_natDigits _ _ _ hc, -Int.natCast_natAbs]
      omega
    · simp only [jsonValChars, intChars, if_neg hn]
      obtain ⟨d, ds, hd⟩ := List.exists_cons_of_ne_nil (natDigits_ne_nil n.natAbs)
      have hdig : d.isDigit = true := natDigits_isDigit _ d (by rw [hd]; exact List.mem_cons_self d ds)
      rw [hd, List.cons_append]
      have h1 : d ≠ '"' := ne_of_isDigit_ne hdig (by decide)
      have h2 : d ≠ '-' := ne_of_isDigit_ne hdig (by decide)
      rw [parseJVal]
      rw [if_neg h1, if_neg h2, ← List.cons_append, ← hd]
      simp [parseNatCs_natDigits _ _ _ hc, -Int.natCast_natAbs]
      omega

@[simp] theorem isWs_quote : isWsChar '"' = false := rfl

@[simp] theorem isWs_colon : isWsChar ':' = false := rfl

@[simp] theorem isWs_comma : isWsChar ',' = false := rfl

@[simp] theorem isWs_rbrace : isWsChar '\x7d' = false := rfl

@[simp] theorem isWs_lbrace : isWsChar '\x7b' = false := rfl

@[simp] theorem isWs_nl : isWsChar '\n' = true := rfl

@[simp] theorem isWs_space : isWsChar ' ' = true := rfl

theorem jsonStrChars_eq (s : String) :
    jsonStrChars s = '"' :: (escList s.data ++ ['"']) := rfl

theorem skipWs_jsonVal (v : JVal) (r : List Char) :
    skipWs (jsonValChars v ++ r) = jsonValChars v ++ r := by
  cases v with
  | jstr s =>
    rw [show jsonValChars (JVal.jstr s) = '"' :: (escList s.data ++ ['"']) from rfl,
      List.cons_append, skipWs_cons_of_not _ _ isWs_quote]
  | jnum n =>
    rw [show jsonValChars (JVal.jnum n) = intChars n from rfl, intChars]
    by_cases hn : n < 0
    · rw [if_pos hn, List.cons_append, skipWs_cons_of_not _ _ (by decide)]
    · rw [if_neg hn]
      obtain ⟨d, ds, hd⟩ := List.exists_cons_of_ne_nil (natDigits_ne_nil n.natAbs)
      have hdig : d.isDigit = true :=
        natDigits_isDigit _ d (by rw [hd]; exact List.mem_cons_self d ds)
      rw [hd, List.cons_append, skipWs_cons_of_not _ _ (isWsChar_of_isDigit d hdig)]

theorem data_mk (l : List Char) : (String.mk l).data = l := rfl

theorem parseFieldsAux_field_compact (fuel : Nat) (k : String) (v : JVal) (c : Char)
    (r : List Char) (hc : c.isDigit = false) :
    parseFieldsAux (fuel + 1) (jsonFieldChars k v ++ c :: r)
      = (match skipWs (c :: r) with
         | [] => none
         | c3 :: rest4 =>
           if c3 = ',' then (parseFieldsAux fuel rest4).map (fun p => ((k, v) :: p.1, p.2))
           else if c3 = '\x7d' then some ([(k, v)], rest4) else none) := by
  have h0 : jsonFieldChars k v ++ c :: r
      = '"' :: (escList k.data ++ '"' :: (':' :: (jsonValChars v ++ c :: r))) := by
    simp [jsonFieldChars, jsonStrChars]
  rw [h0]
  simp [parseFieldsAux, skipWs_cons_of_not _ _ isWs_quote, parseStrAux_escape,
    skipWs_cons_of_not _ _ isWs_colon, skipWs_jsonVal,
    parseJVal_jsonVal _ _ _ hc, mk_data]

theorem parseFieldsAux_field_indent (fuel : Nat) (k : String) (v : JVal) (c : Char)
    (r : List Char) (hc : c.isDigit = false) :
    parseFieldsAux (fuel + 1) (jsonFieldIndChars k v ++ c :: r)
      = (match skipWs (c :: r) with
         | [] => none
         | c3 :: rest4 =>
           if c3 = ',' then (parseFieldsAux fuel rest4).map (fun p => ((k, v) :: p.1, p.2))
           else if c3 = '\x7d' then some ([(k, v)], rest4) else none) := by
  have h0 : jsonFieldIndChars k v ++ c :: r
      = '\n' :: ' ' :: ('"' :: (escList k.data ++ '"' ::
          (':' :: (' ' :: (jsonValChars v ++ c :: r))))) := by
    simp [jsonFieldIndChars, jsonStrChars]
  rw [h0]
  simp [parseFieldsAux, skipWs_cons_of_ws _ _ isWs_nl, skipWs_cons_of_ws _ _ isWs_space,
    skipWs_cons_of_not _ _ isWs_quote, parseStrAux_escape,
    skipWs_cons_of_not _ _ isWs_colon, skipWs_jsonVal,
    parseJVal_jsonVal _ _ _ hc, mk_data]

theorem parseFieldsAux_jsonFields (fs : List (String × JVal)) (r : List Char) (fuel : Nat)
    (hne : fs ≠ []) (hfuel : fs.length < fuel) :
    parseFieldsAux fuel (jsonFieldsChars fs ++ '\x7d' :: r) = some (fs, r) := by
  induction fs generalizing fuel r with
  | nil => cases hne rfl
  | cons kv fs ih =>
    obtain ⟨k, v⟩ := kv
    obtain ⟨m, rfl⟩ : ∃ m, fuel = m + 1 := ⟨fuel - 1, by omega⟩
    cases fs with
    | nil =>
      rw [show jsonFieldsChars [(k, v)] = jsonFieldChars k v from rfl,
        parseFieldsAux_field_compact m k v '\x7d' r (by decide),
        skipWs_cons_of_not _ _ isWs_rbrace]
      simp
    | cons f2 fs2 =>
      rw [show jsonFieldsChars ((k, v) :: f2 :: fs2)
            = jsonFieldChars k v ++ ',' :: jsonFieldsChars (f2 :: fs2) from rfl,
        List.append_assoc, List.cons_append,
        parseFieldsAux_field_compact m k v ',' _ (by decide),
        skipWs_cons_of_not _ _ isWs_comma]
      have hlen : (f2 :: fs2).length < m := by
        simp only [List.length_cons] at hfuel ⊢
        omega
      simp [ih _ _ (by simp) hlen]

theorem parseFieldsAux_jsonFieldsInd (fs : List (String × JVal)) (r : List Char) (fuel : Nat)
    (hne : fs ≠ []) (hfuel : fs.length < fuel) :
    parseFieldsAux fuel (jsonFieldsIndChars fs ++ '\n' :: '\x7d' :: r) = some (fs, r) := by
  induction fs generalizing fuel r with
  | nil => cases hne rfl
  | cons kv fs ih =>
    obtain ⟨k, v⟩ := kv
    obtain ⟨m, rfl⟩ : ∃ m, fuel = m + 1 := ⟨fuel - 1, by omega⟩
    cases fs with
    | nil =>
      rw [show jsonFieldsIndChars [(k, v)] = jsonFieldIndChars k v from rfl,
        parseFieldsAux_field_indent m k v '\n' ('\x7d' :: r) (by decide),
        skipWs_cons_of_ws _ _ isWs_nl, skipWs_cons_of_not _ _ isWs_rbrace]
      simp
    | cons f2 fs2 =>
      rw [show jsonFieldsIndChars ((k, v) :: f2 :: fs2)
            = jsonFieldIndChars k v ++ ',' :: jsonFieldsIndChars (f2 :: fs2) from rfl,
        List.append_assoc, List.cons_append,
        parseFieldsAux_field_indent m k v ',' _ (by decide),
        skipWs_cons_of_not _ _ isWs_comma]
      have hlen : (f2 :: fs2).length < m := by
        simp only [List.length_cons] at hfuel ⊢
        omega
      simp [ih _ _ (by simp) hlen]

theorem jsonFieldsChars_cons_head (k : String) (v : JVal) (fs2 : List (String × JVal)) :
    ∃ t, jsonFieldsChars ((k, v) :: fs2) = '"' :: t := by
  cases fs2 <;> exact ⟨_, rfl⟩

theorem jsonFieldsIndChars_cons_head (k : String) (v : JVal) (fs2 : List (String × JVal)) :
    ∃ t, jsonFieldsIndChars ((k, v) :: fs2) = '\n' :: ' ' :: '"' :: t := by
  cases fs2 <;> exact ⟨_, rfl⟩

theorem length_le_jsonFieldsChars (fs : List (String × JVal)) :
    fs.length ≤ (jsonFieldsChars fs).length := by
  induction fs with
  | nil => simp [jsonFieldsChars]
  | cons kv fs ih =>
    obtain ⟨k, v⟩ := kv
    cases fs with
    | nil => simp [jsonFieldsChars, jsonFieldChars, jsonStrChars]
    | cons f2 fs2 =>
      rw [show jsonFieldsChars ((k, v) :: f2 :: fs2)
            = jsonFieldChars k v ++ ',' :: jsonFieldsChars (f2 :: fs2) from rfl]
      simp only [List.length_cons, List.length_append] at ih ⊢
      omega

theorem length_le_jsonFieldsIndChars (fs : List (String × JVal)) :
    fs.length ≤ (jsonFieldsIndChars fs).length := by
  induction fs with
  | nil => simp [jsonFieldsIndChars]
  | cons kv fs ih =>
    obtain ⟨k, v⟩ := kv
    cases fs with
    | nil => simp [jsonFieldsIndChars, jsonFieldIndChars, jsonStrChars]
    | cons f2 fs2 =>
      rw [show jsonFieldsIndChars ((k, v) :: f2 :: fs2)
            = jsonFieldIndChars k v ++ ',' :: jsonFieldsIndChars (f2 :: fs2) from rfl]
      simp only [List.length_cons, List.length_append] at ih ⊢
      omega

theorem jsonParse_mk_obj (l : List Char) (fs : List (String × JVal)) (c2 : Char)
    (t : List Char) (h2 : skipWs l = c2 :: t) (hc2 : c2 ≠ '\x7d')
    (hp : parseFieldsAux (l.length + 1) l = some (fs, [])) :
    jsonParse (String.mk ('\x7b' :: l)) = some ⟨fs⟩ := by
  rw [jsonParse]
  rw [show (String.mk ('\x7b' :: l)).data = '\x7b' :: l from rfl,
    skipWs_cons_of_not _ _ isWs_lbrace]
  simp [h2, hc2, hp, show skipWs [] = [] from rfl]

theorem jsonParse_compact (o : JObj) : jsonParse (String.mk (jsonObjChars o)) = some o := by
  obtain ⟨fs⟩ := o
  cases fs with
  | nil => rfl
  | cons kv fs2 =>
    obtain ⟨k, v⟩ := kv
    obtain ⟨t, ht⟩ := jsonFieldsChars_cons_head k v fs2
    have hlen := length_le_jsonFieldsChars ((k, v) :: fs2)
    rw [show jsonObjChars ⟨(k, v) :: fs2⟩
          = '\x7b' :: (jsonFieldsChars ((k, v) :: fs2) ++ ['\x7d']) from rfl]
    refine jsonParse_mk_obj _ _ '"' (t ++ ['\x7d']) ?_ (by decide) ?_
    · rw [ht, List.cons_append, skipWs_cons_of_not _ _ isWs_quote]
    · refine parseFieldsAux_jsonFields ((k, v) :: fs2) [] _ (by simp) ?_
      simp only [List.length_append, List.length_cons] at hlen ⊢
      omega

theorem jsonParse_indent (o : JObj) : jsonParse (String.mk (jsonObjIndChars o)) = some o := by
  obtain ⟨fs⟩ := o
  cases fs with
  | nil => rfl
  | cons kv fs2 =>
    obtain ⟨k, v⟩ := kv
    obtain ⟨t, ht⟩ := jsonFieldsIndChars_cons_head k v fs2
    have hlen := length_le_jsonFieldsIndChars ((k, v) :: fs2)
    rw [show jsonObjIndChars ⟨(k, v) :: fs2⟩
          = '\x7b' :: (jsonFieldsIndChars ((k, v) :: fs2) ++ ['\n', '\x7d']) from by
        simp [jsonObjIndChars]]
    refine jsonParse_mk_obj _ _ '"' (t ++ ['\n', '\x7d']) ?_ (by decide) ?_
    · rw [ht, List.cons_append, List.cons_append, List.cons_append,
        skipWs_cons_of_ws _ _ isWs_nl, skipWs_cons_of_ws _ _ isWs_space,
        skipWs_cons_of_not _ _ isWs_quote]
    · refine parseFieldsAux_jsonFieldsInd ((k, v) :: fs2) [] _ (by simp) ?_
      simp only [List.length_append, List.length_cons] at hlen ⊢
      omega

@[simp] theorem isWs_lt : isWsChar '<' = false := rfl

@[simp] theorem isWs_gt : isWsChar '>' = false := rfl

@[simp] theorem isWs_slash : isWsChar '/' = false := rfl

theorem filter_jsonField (k : String) (v : JVal) :
    (jsonFieldIndChars k v).filter (fun c => !isWsChar c)
      = (jsonFieldChars k v).filter (fun c => !isWsChar c) := by
  simp [jsonFieldIndChars, jsonFieldChars, List.filter_append, List.filter_cons]

theorem filter_jsonFields (fs : List (String × JVal)) :
    (jsonFieldsIndChars fs).filter (fun c => !isWsChar c)
      = (jsonFieldsChars fs).filter (fun c => !isWsChar c) := by
  induction fs with
  | nil => rfl
  | cons kv fs ih =>
    obtain ⟨k, v⟩ := kv
    cases fs with
    | nil =>
      rw [show jsonFieldsIndChars [(k, v)] = jsonFieldIndChars k v from rfl,
        show jsonFieldsChars [(k, v)] = jsonFieldChars k v from rfl, filter_jsonField]
    | cons f2 fs2 =>
      rw [show jsonFieldsIndChars ((k, v) :: f2 :: fs2)
            = jsonFieldIndChars k v ++ ',' :: jsonFieldsIndChars (f2 :: fs2) from rfl,
        show jsonFieldsChars ((k, v) :: f2 :: fs2)
            = jsonFieldChars k v ++ ',' :: jsonFieldsChars (f2 :: fs2) from rfl]
      simp [List.filter_append, List.filter_cons, filter_jsonField, ih]

theorem filter_jsonObj (o : JObj) :
    (jsonObjIndChars o).filter (fun c => !isWsChar c)
      = (jsonObjChars o).filter (fun c => !isWsChar c) := by
  obtain ⟨fs⟩ := o
  cases fs with
  | nil => rfl
  | cons kv fs2 =>
    rw [show jsonObjIndChars ⟨kv :: fs2⟩
          = '\x7b' :: (jsonFieldsIndChars (kv :: fs2) ++ ['\n', '\x7d']) from by
        simp [jsonObjIndChars],
      show jsonObjChars ⟨kv :: fs2⟩
          = '\x7b' :: (jsonFieldsChars (kv :: fs2) ++ ['\x7d']) from rfl]
    simp [List.filter_append, List.filter_cons, filter_jsonFields]

theorem filter_xmlFields (l : List (String × String)) :
    (xmlFieldsIndChars l).filter (fun c => !isWsChar c)
      = (xmlFieldsChars l).filter (fun c => !isWsChar c) := by
  induction l with
  | nil => rfl
  | cons kv l ih =>
    obtain ⟨k, v⟩ := kv
    rw [show xmlFieldsIndChars ((k, v) :: l)
          = '\n' :: ' ' :: (xmlFieldChars k v ++ xmlFieldsIndChars l) from rfl,
      show xmlFieldsChars ((k, v) :: l) = xmlFieldChars k v ++ xmlFieldsChars l from rfl]
    simp [List.filter_append, List.filter_cons, ih]

theorem filter_xmlObj (x : XElem) :
    (xmlObjIndChars x).filter (fun c => !isWsChar c)
      = (xmlObjChars x).filter (fun c => !isWsChar c) := by
  obtain ⟨nm, fl⟩ := x
  cases fl with
  | nil => rfl
  | cons kv fl2 =>
    rw [show xmlObjIndChars ⟨nm, kv :: fl2⟩
          = '<' :: (nm.data ++ '>' :: (xmlFieldsIndChars (kv :: fl2)
              ++ '\n' :: '<' :: '/' :: (nm.data ++ ['>']))) from by simp [xmlObjIndChars],
      show xmlObjChars ⟨nm, kv :: fl2⟩
          = '<' :: (nm.data ++ '>' :: (xmlFieldsChars (kv :: fl2)
              ++ '<' :: '/' :: (nm.data ++ ['>']))) from rfl]
    simp [List.filter_append, List.filter_cons, filter_xmlFields]

/-- C5: round-trip — unmarshaling the body written by the JSON method with
default options yields the original struct value. -/
theorem json_roundtrip (v : JObj) (code : Nat) :
    jsonParse (((New {}).JSON {} code v).res.body) = some v := by
  have hb : ((New {}).JSON {} code v).res.body = String.mk (jsonObjChars v) := rfl
  rw [hb]
  exact jsonParse_compact v

/-- C6: enabling JSONIndent or XMLIndent changes only whitespace in the
body: unmarshaling the indented JSON body gives the same value as the
compact one, and stripping whitespace characters from the JSON and XML
bodies gives the same string with the flag on as off. -/
theorem indent_whitespace_only (v : JObj) (x : XElem) (code : Nat) :
    jsonParse (((New { JSONIndent := true }).JSON {} code v).res.body)
      = jsonParse (((New {}).JSON {} code v).res.body)
  ∧ stripWs (((New { JSONIndent := true }).JSON {} code v).res.body)
      = stripWs (((New {}).JSON {} code v).res.body)
  ∧ stripWs (((New { XMLIndent := true }).XML {} code x).res.body)
      = stripWs (((New {}).XML {} code x).res.body) := by
  have hbi : ((New { JSONIndent := true }).JSON {} code v).res.body
      = String.mk (jsonObjIndChars v) := rfl
  have hbc : ((New {}).JSON {} code v).res.body = String.mk (jsonObjChars v) := rfl
  have hxi : ((New { XMLIndent := true }).XML {} code x).res.body
      = defaultXMLPrefix ++ String.mk (xmlObjIndChars x) := rfl
  have hxc : ((New {}).XML {} code x).res.body
      = defaultXMLPrefix ++ String.mk (xmlObjChars x) := rfl
  refine ⟨?_, ?_, ?_⟩
  · rw [hbi, hbc, jsonParse_indent, jsonParse_compact]
  · rw [hbi, hbc]
    exact congrArg String.mk (filter_jsonObj v)
  · rw [hxi, hxc]
    show String.mk _ = String.mk _
    rw [String.data_append, String.data_append, data_mk, data_mk,
      List.filter_append, List.filter_append, filter_xmlObj x]

/-- C2: for every value and nonempty callback, JSONP returns no error and
writes exactly callback, an opening parenthesis, the serialized value, and
a closing parenthesis with a semicolon. -/
theorem jsonp_body_format (o : Options) (w : Recorder) (code : Nat) (c : String)
    (v : JObj) (h : c ≠ "") :
    ((New o).JSONP w code c v).err = none
  ∧ ((New o).JSONP w code c v).res.body
      = w.body ++ (c ++ "(" ++ (New o).json v ++ ");") := by
  constructor <;> simp [Render.JSONP, h]

theorem natDigits_30 : natDigits 30 = ['3', '0'] := by
  rw [natDigits_eq_of_ge (by omega), natDigits_eq_of_lt (by norm_num)]
  decide

theorem jsonObjChars_user :
    jsonObjChars userJObj = "\x7b\"Name\":\"John Doe\",\"Age\":30\x7d".data := by
  simp [userJObj, jsonObjChars, jsonFieldsChars, jsonFieldChars, jsonStrChars, jsonValChars,
    intChars, escList, escChar, natDigits_30]

/-- Witness for C2 at the tests' concrete input: callback jsonp with the
John Doe value yields the expected body. -/
theorem jsonp_body_format_witness :
    ((New {}).JSONP {} 200 "jsonp" userJObj).err = none
  ∧ ((New {}).JSONP {} 200 "jsonp" userJObj).res.body
      = "jsonp(\x7b\"Name\":\"John Doe\",\"Age\":30\x7d);" := by
  obtain ⟨h1, h2⟩ := jsonp_body_format {} {} 200 "jsonp" userJObj (by decide)
  refine ⟨h1, ?_⟩
  rw [h2, show (New {}).json userJObj = String.mk (jsonObjChars userJObj) from rfl,
    jsonObjChars_user]
  decide

/-- C10: the JSONPrefix option is applied only by the JSON method: JSON
writes the prefix followed by the serialized value, while JSONP with the
same options writes callback(json); with no prefix prepended. -/
theorem json_prefix_not_in_jsonp (v : JObj) (p c : String) (code : Nat)
    (_hp : p ≠ "") (hc : c ≠ "") :
    (((New { JSONPrefix := p }).JSON {} code v).res.body
      = p ++ String.mk (jsonObjChars v))
  ∧ (((New { JSONPrefix := p }).JSONP {} code c v).res.body
      = c ++ "(" ++ String.mk (jsonObjChars v) ++ ");") := by
  refine ⟨rfl, ?_⟩
  simp only [Render.JSONP, hc]
  rfl

/-- Witness for C10 at the tests' concrete input: prefix backslash-n, the
John Doe value and callback jsonp. -/
theorem json_prefix_not_in_jsonp_witness :
    (((New { JSONPrefix := "\n" }).JSON {} 200 userJObj).res.body
      = "\n\x7b\"Name\":\"John Doe\",\"Age\":30\x7d")
  ∧ (((New { JSONPrefix := "\n" }).JSONP {} 200 "jsonp" userJObj).res.body
      = "jsonp(\x7b\"Name\":\"John Doe\",\"Age\":30\x7d);") := by
  obtain ⟨h1, h2⟩ := json_prefix_not_in_jsonp userJObj "\n" "jsonp" 200 (by decide) (by decide)
  exact ⟨by rw [h1, jsonObjChars_user]; decide, by rw [h2, jsonObjChars_user]; decide⟩

/-- C3: for every charset and disable flag passed at construction, each
format method (String, JSON, JSONP, XML, YAML, HTML, Template, View)
writes a Content-Type equal to its documented string followed by the
charset suffix (default UTF-8), the suffix omitted exactly when charset is
disabled. -/
theorem content_type_matches_documented (cs : String) (d : Bool) (w : Recorder)
    (code : Nat) (s c nm : String) (v : JObj) (x : XElem)
    (yf : List (String × String)) (ts : TmplSet) (ly : List Node) :
    (((New { Charset := cs, DisableCharset := d }).String w code s).res.getHeader ContentType
      = (if d then ContentText
         else ContentText ++ "; charset=" ++ fillDefault cs defaultCharSet))
  ∧ (((New { Charset := cs, DisableCharset := d }).JSON w code v).res.getHeader ContentType
      = (if d then ContentJSON
         else ContentJSON ++ "; charset=" ++ fillDefault cs defaultCharSet))
  ∧ (((New { Charset := cs, DisableCharset := d }).JSONP w code c v).res.getHeader ContentType
      = (if d then ContentJSONP
         else ContentJSONP ++ "; charset=" ++ fillDefault cs defaultCharSet))
  ∧ (((New { Charset := cs, DisableCharset := d }).XML w code x).res.getHeader ContentType
      = (if d then ContentXML
         else ContentXML ++ "; charset=" ++ fillDefault cs defaultCharSet))
  ∧ (((New { Charset := cs, DisableCharset := d }).YAML w code yf).res.getHeader ContentType
      = (if d then ContentYAML
         else ContentYAML ++ "; charset=" ++ fillDefault cs defaultCharSet))
  ∧ (((New { Charset := cs, DisableCharset := d }).HTML w code nm).res.getHeader ContentType
      = (if d then ContentHTML
         else ContentHTML ++ "; charset=" ++ fillDefault cs defaultCharSet))
  ∧ (((New { Charset := cs, DisableCharset := d }).Template w code ts ly).res.getHeader
        ContentType
      = (if d then ContentHTML
         else ContentHTML ++ "; charset=" ++ fillDefault cs defaultCharSet))
  ∧ (((New { Charset := cs, DisableCharset := d }).View w code nm).res.getHeader ContentType
      = (if d then ContentHTML
         else ContentHTML ++ "; charset=" ++ fillDefault cs defaultCharSet)) := by
  by_cases hc : c = "" <;> cases d <;>
    simp [Render.String, Render.JSON, Render.JSONP, Render.XML, Render.YAML, Render.HTML,
      Render.Template, Render.View, lookupTmpl, hc, getHeader_setHeader_self, New,
      Options.withDefaults, Options.enableCharset, fillDefault, withCharset]

/-- C7: the HTML method errors exactly when the name is not in the parsed
template set, and on a known name returns no error and writes the composed
HTML obtained by executing that template; the View method does the same
against the view set, executing the base layout with the named content
file's definitions. -/
theorem html_view_name_lookup (r : Render) (w : Recorder) (code : Nat) (n : String) :
    ((r.HTML w code n).err.isSome = (lookupTmpl r.templates n).isNone)
  ∧ ((r.HTML w code n).res.body
      = w.body ++ (match lookupTmpl r.templates n with
                   | none => ""
                   | some body => execT r.templates maxExecDepth body))
  ∧ ((r.View w code n).err.isSome = (r.viewSet.find? (fun p => p.1 = n)).isNone)
  ∧ ((r.View w code n).res.body
      = w.body ++ (match (r.viewSet.find? (fun p => p.1 = n)).map (·.2) with
                   | none => ""
                   | some defs => execT defs maxExecDepth r.baseLayout)) := by
  refine ⟨?_, ?_, ?_, ?_⟩
  · cases h : lookupTmpl r.templates n <;> simp [Render.HTML, h]
  · cases h : lookupTmpl r.templates n <;>
      simp [Render.HTML, h, Recorder.write, String.append_empty]
  · cases h : r.viewSet.find? (fun p => p.1 = n) <;> simp [Render.View, h]
  · cases h : r.viewSet.find? (fun p => p.1 = n) <;>
      simp [Render.View, h, Recorder.write, String.append_empty]

/-- The tests' glob scenario evaluated concretely: a renderer over the
header/homePage template set composes the home page from both fragments,
and errors on the unknown name about. -/
theorem html_scenario :
    (({ opts := (New {}).opts, templates := testTmplSet } : Render).HTML {} 200
        "homePage").err = none
  ∧ (({ opts := (New {}).opts, templates := testTmplSet } : Render).HTML {} 200
        "homePage").res.body = "<html><head><title>Header</title></head>home</html>"
  ∧ (({ opts := (New {}).opts, templates := testTmplSet } : Render).HTML {} 200
        "about").err.isSome = true := by
  refine ⟨rfl, ?_, rfl⟩
  rw [show ({ opts := (New {}).opts, templates := testTmplSet } : Render).HTML {} 200
        "homePage"
      = ⟨(((({} : Recorder).setHeader ContentType (New {}).opts.ContentHTML).writeHeader
          200).write (execT testTmplSet maxExecDepth
            [Node.text "<html>", Node.exec "header", Node.text "home</html>"])), none⟩
      from rfl]
  rw [show maxExecDepth = 99999 + 1 from rfl]
  simp [execT, execNode, lookupTmpl, testTmplSet, Recorder.write, String.join]

end Renderer
